import Mathlib

/-!
Verification development for the static-asset delivery subsystem
(`Minify.js`): path resolution under an asset root, freshness stat with
parent-directory fallback, aggregate bootstrap assembly, best-effort
compression, and in-process loopback fetching.

The JavaScript source is shallowly embedded: machine dates are `Int`
milliseconds, the filesystem and the external collaborators (plugin
registry, compression workers, require-kernel source) are explicit
parameters in an `Env` record, and the async handler pipeline becomes a
pure function returning `Except Unit Response` (an `error` models a
rejected promise that surfaces as a server error).
-/

/- ### String and POSIX path helpers

The source relies on Node's `path.posix` functions and JS string
operations.  They are modelled here on `List Char` with structural
recursion so that every definition evaluates by kernel reduction. -/

/-- Split a character list at every occurrence of the separator, keeping
empty pieces, like `String.split` / JS `split`. -/
def splitOnChar (sep : Char) : List Char → List (List Char)
  | [] => [[]]
  | c :: cs =>
    let r := splitOnChar sep cs
    if c = sep then [] :: r
    else
      match r with
      | h :: t => (c :: h) :: t
      | [] => [[c]]

/-- Join a list of strings with a separator, like `Array.prototype.join`. -/
def joinSep (sep : String) : List String → String
  | [] => ""
  | [s] => s
  | s :: rest => s ++ sep ++ joinSep sep rest

/-- Concatenate a list of strings. -/
def strJoin : List String → String
  | [] => ""
  | s :: rest => s ++ strJoin rest

/-- One step of POSIX path-segment normalization: empty and `.` segments
vanish, `..` pops the previous segment (at the root of an absolute path it
is dropped, matching `path.posix.normalize` on absolute inputs). -/
def stackStep (stack : List String) (seg : String) : List String :=
  if seg = "" ∨ seg = "." then stack
  else if seg = ".." then stack.dropLast
  else stack ++ [seg]

/-- The normalized segment list of a path (collapsing `.`, `..` and
repeated separators). -/
def pathSegs (p : String) : List String :=
  ((splitOnChar '/' p.data).map (fun cs => String.mk cs)).foldl stackStep []

/-- Node `path.posix.normalize` restricted to absolute inputs (the only
inputs the source ever normalizes): collapse `.`/`..`/`//`, keep a
trailing separator. -/
def posixNormalizeAbs (p : String) : String :=
  let segs := pathSegs p
  let core := "/" ++ joinSep "/" segs
  if p.data.getLast? = some '/' ∧ segs ≠ [] then core ++ "/" else core

/-- Node `path.posix.join base rest` for an absolute `base` that ends in a
separator, as with every call site in the source: concatenate with a
separator and normalize. -/
def posixJoinAbs (base rest : String) : String :=
  posixNormalizeAbs (base ++ "/" ++ rest)

/-- JS `s.replace(/\.\./g, '')`: remove every (left-to-right,
non-overlapping) occurrence of the two-character sequence `..`. -/
def stripDDList : List Char → List Char
  | '.' :: '.' :: rest => stripDDList rest
  | c :: rest => c :: stripDDList rest
  | [] => []

/-- String version of `stripDDList`. -/
def stripDotDot (s : String) : String := String.mk (stripDDList s.data)

/-- JS `s.replace(/\\/g, '/')` (the Windows separator fix). -/
def replaceBackslash (s : String) : String :=
  String.mk (s.data.map (fun c => if c = '\\' then '/' else c))

/-- Node `path.posix.dirname`: the path up to the last separator, after
ignoring trailing separators; `.` when there is no separator, `/` for
root-only inputs. -/
def dirname (p : String) : String :=
  let r2 := (p.data.reverse.dropWhile (fun c => c = '/')).dropWhile (fun c => c ≠ '/')
  match r2 with
  | [] => if p.data.take 1 = ['/'] then "/" else "."
  | _ :: rest =>
    if rest = [] then "/"
    else if rest = ['/'] then "//"
    else String.mk rest.reverse

/-- Drop the common leading segments of two segment lists (used by
`path.posix.relative`). -/
def dropCommon : List String → List String → List String × List String
  | a :: as1, b :: bs1 =>
    if a = b then dropCommon as1 bs1 else (a :: as1, b :: bs1)
  | as1, bs1 => (as1, bs1)

/-- Node `path.posix.relative` for two absolute arguments: resolve both,
drop the common prefix, climb with `..` and descend into the target. -/
def pathRelative (fro tgt : String) : String :=
  let p := dropCommon (pathSegs fro) (pathSegs tgt)
  joinSep "/" (p.1.map (fun _ => "..") ++ p.2)

/-- Take the substring after the first `n` characters (JS `slice(n)` on
the all-ASCII strings used here). -/
def sliceFrom (s : String) (n : Nat) : String := String.mk (s.data.drop n)

/- ### Data model -/

/-- A response-header value: either a date (the source emits dates through
`toUTCString`, carried here as the underlying millisecond timestamp) or a
plain string. -/
inductive HdrVal where
  | timeVal (ms : Int)
  | strVal (s : String)
deriving DecidableEq

/-- A JS-object header map: insertion-ordered association list, assignment
overwrites in place. -/
abbrev Headers := List (String × HdrVal)

/-- JS object property assignment `h[k] = v`. -/
def hset (h : Headers) (k : String) (v : HdrVal) : Headers :=
  if (h.map (fun kv => kv.1)).contains k then
    h.map (fun kv => if kv.1 = k then (k, v) else kv)
  else h ++ [(k, v)]

/-- JS object property read `h[k]`. -/
def hget (h : Headers) (k : String) : Option HdrVal :=
  (h.find? (fun kv => kv.1 = k)).map (fun kv => kv.2)

/-- Result of `fs.stat`: success (mtime and `isFile()`), a not-found
rejection (`err.code === 'ENOENT'`), or any other rejection. -/
inductive StatOut where
  | ok (mtimeMs : Int) (isFile : Bool)
  | enoent
  | error
deriving DecidableEq

/-- The filesystem collaborator: `stat`, `readdir` (`none` models a
rejected readdir) and `readFile` (`none` models a rejected read). -/
structure FS where
  stat : String → StatOut
  readdir : String → Option (List String)
  read : String → Option String

/-- Outcome of the worker-pool JS transform `compressJS`: a result object
without an `error` field, a result object whose `error` field is truthy,
or a thrown exception. -/
inductive JsResult where
  | ok (code : String)
  | errorField
  | exn

/-- Outcome of the worker-pool CSS transform `compressCSS`: a result or a
thrown exception. -/
inductive CssResult where
  | ok (code : String)
  | exn

/-- The `settings` collaborator: the global minification flag and the
optional `maxAge` (seconds). -/
structure Settings where
  minify : Bool
  maxAge : Option Int

/-- The ambient environment of the module: filesystem, plugin registry
(name to `package.realPath`), settings, the current time (`Date.now()`),
the process-start `_requireLastModified` date, the require-kernel source,
and the two members exposed by a worker of the compression pool. -/
structure Env where
  fs : FS
  reg : String → Option String
  settings : Settings
  now : Int
  requireLastModified : Int
  kernelSource : String
  compressJS : String → JsResult
  compressCSS : String → CssResult

/-- An incoming request as the handler sees it: the `filename` route
parameter, the method, and the request headers. -/
structure Request where
  filename : String
  method : String
  headers : Headers

/-- An outgoing response: status, the headers written by the handler (in
write order, keys lower-cased as the source writes them), and the body. -/
structure Response where
  status : Nat
  headers : Headers
  body : String
deriving DecidableEq

/-- Project the status out of a handler outcome. -/
def statusOf : Except Unit Response → Option Nat
  | .ok r => some r.status
  | .error _ => none

/-- Project the body out of a handler outcome. -/
def bodyOf : Except Unit Response → Option String
  | .ok r => some r.body
  | .error _ => none

/-- Project one response header out of a handler outcome. -/
def headerValOf (e : Except Unit Response) (k : String) : Option HdrVal :=
  match e with
  | .ok r => hget r.headers k
  | .error _ => none

/- ### Constants of the module -/

/-- The asset root `ROOT_DIR = path.normalize(__dirname + '/../../static/')`,
a fixed absolute directory path ending in a separator; modelled with the
concrete deployment value. -/
def ROOT_DIR : String := "/etherpad/src/static/"

/-- The fixed whitelist of third-party library names. -/
def LIBRARY_WHITELIST : List String :=
  ["async", "js-cookie", "security", "tinycon", "underscore", "unorm"]

/- ### Path resolution (`minify`, lines 103-137) -/

/-- The normalization the handler applies first:
`path.normalize(path.join(ROOT_DIR, filename))`. -/
def normalizedAbs (raw : String) : String :=
  posixNormalizeAbs (posixJoinAbs ROOT_DIR raw)

/-- Result of the plugin-path regular expression
`^plugins\/([^/]+)(\/(?:(static\/.*)|.*))?$`: the library name (first
segment after `plugins/`), the remainder `match[2] || ''` (with its
leading separator), and whether the third capture group (a remainder of
the form `static/...`) matched. -/
structure PMatch where
  library : String
  libraryPath : String
  isStaticPath : Bool
deriving DecidableEq

/-- Evaluate the plugin-path regular expression on a resolved relative
filename. -/
def pluginsMatch (filename : String) : Option PMatch :=
  if ("plugins/".data).isPrefixOf filename.data then
    let tail := filename.data.drop 8
    match tail with
    | [] => none
    | c :: _ =>
      if c = '/' then none
      else
        let name := tail.takeWhile (fun x => x ≠ '/')
        let rest := tail.dropWhile (fun x => x ≠ '/')
        match rest with
        | [] => some ⟨String.mk name, "", false⟩
        | _ :: after =>
          some ⟨String.mk name, String.mk rest, ("static/".data).isPrefixOf after⟩
  else none

/-- The plugin/library rewriting step (lines 121-137): a registered plugin
with a `static/` sub-path is rewritten to its real install path relative
to the asset root; otherwise a whitelisted library name is rewritten into
the sibling `node_modules` directory; otherwise the name is left alone. -/
def pluginRewrite (reg : String → Option String) (filename : String) : String :=
  match pluginsMatch filename with
  | none => filename
  | some m =>
    match reg m.library, m.isStaticPath with
    | some realPath, true =>
      replaceBackslash (pathRelative ROOT_DIR (realPath ++ m.libraryPath))
    | some _, false =>
      if LIBRARY_WHITELIST.contains m.library then
        "../node_modules/" ++ m.library ++ m.libraryPath
      else filename
    | none, _ =>
      if LIBRARY_WHITELIST.contains m.library then
        "../node_modules/" ++ m.library ++ m.libraryPath
      else filename

/-- The whole resolution step of the handler (lines 103-137): normalize
under the asset root, strip literal `..` pairs, reject unless the asset
root is a prefix, slice the root off, fix separators, rewrite
plugin/library paths.  `none` is the not-found rejection. -/
def resolvePath (reg : String → Option String) (raw : String) : Option String :=
  let f2 := stripDotDot (normalizedAbs raw)
  if ROOT_DIR.data.isPrefixOf f2.data then
    some (pluginRewrite reg (replaceBackslash (sliceFrom f2 ROOT_DIR.data.length)))
  else none

/-- The `mime.lookup` collaborator, modelled for the two content types the
module dispatches on (`none` is the JS `false` for an unknown
extension). -/
def mimeLookup (f : String) : Option String :=
  let base := ((splitOnChar '/' f.data).map (fun cs => String.mk cs)).getLastD f
  let parts := splitOnChar '.' base.data
  if parts.length ≤ 1 then none
  else
    let ext := String.mk (parts.getLastD [])
    if ext = "js" then some "application/javascript"
    else if ext = "css" then some "text/css"
    else none

/-- A content-type value as written into the header (`false` stringifies
when the lookup failed). -/
def ctString : Option String → String
  | some s => s
  | none => "false"

/- ### Freshness stat (`statFile`, `lastModifiedDateOfEverything`) -/

/-- One comparison step of the aggregate maximum (`latestModification`),
starting from JS `null`. -/
def maxStep (acc : Option Int) (m : Int) : Option Int :=
  match acc with
  | none => some m
  | some l => if m > l then some m else some l

/-- Fold `maxStep` over a list of mtimes. -/
def maxFold (acc : Option Int) (ms : List Int) : Option Int :=
  ms.foldl maxStep acc

/-- The two directory trees the aggregate scan walks. -/
def AGGREGATE_DIRS : List String := [ROOT_DIR ++ "js/", ROOT_DIR ++ "css/"]

/-- Scan one folder: list it, append the directory itself (`.`), and fold
the stat mtimes into the running maximum; any readdir or stat rejection
propagates. -/
def scanFolder (fs : FS) (folder : String) (acc : Option Int) :
    Except Unit (Option Int) :=
  match fs.readdir folder with
  | none => .error ()
  | some files =>
    (files ++ ["."]).foldlM
      (fun a f =>
        match fs.stat (folder ++ "/" ++ f) with
        | .ok m _ => Except.ok (maxStep a m)
        | _ => Except.error ())
      acc

/-- `lastModifiedDateOfEverything` (lines 250-273): the maximum mtime over
every entry of the script and style folders, the folders themselves
included; sequential fold is a linearization of the unordered concurrent
scan (maximum is order-independent). -/
def lastModifiedDateOfEverything (fs : FS) : Except Unit (Option Int) :=
  AGGREGATE_DIRS.foldlM (fun a folder => scanFolder fs folder a) none

/-- The stat keys the aggregate scan visits for one folder (the folder
string already ends in a separator, so the source produces a doubled
separator, kept here verbatim). -/
def folderPaths (fs : FS) (folder : String) : List String :=
  (((fs.readdir folder).getD []) ++ ["."]).map (fun f => folder ++ "/" ++ f)

/-- All stat keys the aggregate scan visits. -/
def lmEntryPaths (fs : FS) : List String :=
  folderPaths fs (ROOT_DIR ++ "js/") ++ folderPaths fs (ROOT_DIR ++ "css/")

/-- The mtime recorded for a scanned key (0 when the stat does not
succeed; only used under a success hypothesis). -/
def mtimeOf (fs : FS) (p : String) : Int :=
  match fs.stat p with
  | .ok m _ => m
  | _ => 0

/-- Whether a stat succeeds. -/
def statIsOk (fs : FS) (p : String) : Bool :=
  match fs.stat p with
  | .ok _ _ => true
  | _ => false

/-- `statFile` (lines 217-248): budget guard, the two virtual names, then
the generic stat with ENOENT fallback to the parent directory. -/
def statFile (env : Env) (filename : String) (limit : Nat) :
    Except Unit (Option Int × Bool) :=
  match limit with
  | 0 => .ok (none, false)
  | n + 1 =>
    if filename = "" ∨ filename = "/" then .ok (none, false)
    else if filename = "js/ace.js" then
      (lastModifiedDateOfEverything env.fs).map (fun d => (d, true))
    else if filename = "js/require-kernel.js" then
      .ok (some env.requireLastModified, true)
    else
      match env.fs.stat (ROOT_DIR ++ filename) with
      | .ok m isf => .ok (some m, isf)
      | .enoent => (statFile env (dirname filename) n).map (fun p => (p.1, false))
      | .error => .error ()

/- ### JSON string serialization (`JSON.stringify` on strings) -/

/-- A lowercase hexadecimal digit. -/
def hexDigit (n : Nat) : Char :=
  if n < 10 then Char.ofNat (48 + n) else Char.ofNat (87 + n)

/-- Four-digit lowercase hexadecimal rendering. -/
def hex4 (n : Nat) : String :=
  String.mk [hexDigit (n / 4096 % 16), hexDigit (n / 256 % 16),
             hexDigit (n / 16 % 16), hexDigit (n % 16)]

/-- The escape `JSON.stringify` applies to one character. -/
def jsonEscapeChar (c : Char) : String :=
  if c = '"' then "\\\""
  else if c = '\\' then "\\\\"
  else if c = Char.ofNat 8 then "\\b"
  else if c = Char.ofNat 9 then "\\t"
  else if c = Char.ofNat 10 then "\\n"
  else if c = Char.ofNat 12 then "\\f"
  else if c = Char.ofNat 13 then "\\r"
  else if c.toNat < 32 then "\\u" ++ hex4 c.toNat
  else String.mk [c]

/-- `JSON.stringify` of a string value. -/
def jsonStringify (s : String) : String :=
  "\"" ++ strJoin (s.data.map jsonEscapeChar) ++ "\""

/- ### Embed-directive extraction (`getAceFile`, lines 180-189) -/

/-- Case-insensitive character comparison (the regex carries the `i`
flag). -/
def ciEq (a b : Char) : Bool := a.toLower = b.toLower

/-- Match a literal pattern case-insensitively, returning the remainder. -/
def matchCI : List Char → List Char → Option (List Char)
  | [], cs => some cs
  | _ :: _, [] => none
  | p :: ps, c :: cs => if ciEq p c then matchCI ps cs else none

/-- A character of the `[a-zA-Z_]` class. -/
def isIdentChar (c : Char) : Bool := c.isAlpha || c = '_'

/-- Try to match `\$\$INCLUDE_[a-zA-Z_]+\((['"])([^'"]*)\1\)` at the head
of the character list; on success return the second capture group and the
remainder after the match. -/
def tryInclude (cs : List Char) : Option (String × List Char) :=
  match matchCI "$$INCLUDE_".data cs with
  | none => none
  | some cs1 =>
    let ident := cs1.takeWhile isIdentChar
    let rest := cs1.dropWhile isIdentChar
    if ident.isEmpty then none
    else
      match rest with
      | '(' :: q :: more =>
        if q = '\'' ∨ q = '"' then
          let cap := more.takeWhile (fun c => c ≠ '\'' ∧ c ≠ '"')
          match more.dropWhile (fun c => c ≠ '\'' ∧ c ≠ '"') with
          | q2 :: ')' :: rem => if q2 = q then some (String.mk cap, rem) else none
          | _ => none
        else none
      | _ => none

/-- Scan for successive non-overlapping matches (the `regex.exec` loop),
with a fuel bounded by the text length. -/
def extractAux : List Char → Nat → List String
  | _, 0 => []
  | [], _ => []
  | c :: rest, n + 1 =>
    match tryInclude (c :: rest) with
    | some (cap, rem) => cap :: extractAux rem n
    | none => extractAux rest n

/-- All embed-directive paths of the bootstrap text, in order. -/
def extractIncludes (data : String) : List String :=
  extractAux data.data data.data.length

/- ### Content assembly (`getAceFile`, `getFile`, `getFileCompressed`) -/

/-- A loopback fetch: URI to (status, response headers, body); `error`
models a rejected inner request. -/
abbrev Fetch := String → Except Unit (Nat × Headers × String)

/-- The loopback URI built for a referenced path (lines 199-202):
`'http://invalid.invalid' + path.normalize(path.join('/static/', f))`,
with separators fixed. -/
def aceResourceURI (filename : String) : String :=
  replaceBackslash ("http://invalid.invalid" ++ posixJoinAbs "/static/" filename)

/-- The list of referenced paths the assembler fetches: the extracted
embed directives when minification is on, always followed by the
require-kernel shim path. -/
def aceFilenames (env : Env) (data : String) : List String :=
  (if env.settings.minify then extractIncludes data else []) ++
    ["../static/js/require-kernel.js"]

/-- The generated line for one referenced path (lines 204-211): a mapping
to the fetched body on 200, a mapping to `null` on 404, nothing (only a
log) on any other status; a rejected fetch propagates. -/
def aceChunk (fetch : Fetch) (filename : String) : Except Unit String :=
  match fetch (aceResourceURI filename) with
  | .error e => .error e
  | .ok (status, _, body) =>
    if status = 200 ∨ status = 404 then
      .ok ("Ace2Editor.EMBEDED[" ++ jsonStringify filename ++ "] = " ++
           (if status = 200 then jsonStringify body else "null") ++ ";\n")
    else .ok ""

/-- The pure value of `aceChunk` under a non-rejecting fetch. -/
def aceChunkStr (fetch : Fetch) (filename : String) : String :=
  match fetch (aceResourceURI filename) with
  | .error _ => ""
  | .ok (status, _, body) =>
    if status = 200 ∨ status = 404 then
      "Ace2Editor.EMBEDED[" ++ jsonStringify filename ++ "] = " ++
        (if status = 200 then jsonStringify body else "null") ++ ";\n"
    else ""

/-- The status a fetch reports for a referenced path. -/
def fetchStatus (fetch : Fetch) (filename : String) : Option Nat :=
  match fetch (aceResourceURI filename) with
  | .ok (st, _, _) => some st
  | .error _ => none

/-- `getAceFile` (lines 176-214): read the bootstrap file, append the
embed-table header, then the generated line of every referenced path.
The source appends the lines in fetch-completion order; the model fixes
the textual order of the reference list, one legal linearization. -/
def getAceFile (env : Env) (fetch : Fetch) : Except Unit String :=
  match env.fs.read (ROOT_DIR ++ "js/ace.js") with
  | none => .error ()
  | some data =>
    match (aceFilenames env data).mapM (aceChunk fetch) with
    | .error e => .error e
    | .ok chunks =>
      .ok (data ++ ";\n" ++ "Ace2Editor.EMBEDED = Ace2Editor.EMBEDED || \x7b\x7d;\n" ++
           strJoin chunks)

/-- `requireDefinition` (line 278). -/
def requireDefinition (env : Env) : String :=
  "var require = " ++ env.kernelSource ++ ";\n"

/-- `getFile` (lines 323-327): the two virtual names, else a raw read. -/
def getFile (env : Env) (fetch : Fetch) (filename : String) : Except Unit String :=
  if filename = "js/ace.js" then getAceFile env fetch
  else if filename = "js/require-kernel.js" then .ok (requireDefinition env)
  else
    match env.fs.read (ROOT_DIR ++ filename) with
    | some c => .ok c
    | none => .error ()

/-- `getFileCompressed` (lines 280-321): pass through when the content is
falsy or minification is off; otherwise dispatch on the content type and
fall back to the original content when the transform reports an error or
throws. -/
def getFileCompressed (env : Env) (fetch : Fetch) (filename : String)
    (contentType : Option String) : Except Unit String :=
  match getFile env fetch filename with
  | .error e => .error e
  | .ok content =>
    if content = "" ∨ env.settings.minify = false then .ok content
    else if contentType = some "application/javascript" then
      match env.compressJS content with
      | .ok code => .ok code
      | .errorField => .ok content
      | .exn => .ok content
    else if contentType = some "text/css" then
      match env.compressCSS filename with
      | .ok code => .ok code
      | .exn => .ok content
    else .ok content

/- ### The request handler (`minify`, lines 100-173) -/

/-- Parse the `if-modified-since` request header the way
`new Date(header)` does: a date value parses to its timestamp, anything
else (including an absent header) is an invalid date. -/
def parseIMS (h : Headers) : Option Int :=
  match hget h "if-modified-since" with
  | some (.timeVal t) => some t
  | _ => none

/-- The conditional comparison `new Date(ims) >= date`: an invalid date
compares false; a null date coerces to 0. -/
def imsGE (ims dat : Option Int) : Bool :=
  match ims with
  | none => false
  | some t => decide (t ≥ dat.getD 0)

/-- The freshness headers the handler writes when a date was found
(lines 142-151): truncated `last-modified`, current `date`, and the
`expires`/`cache-control` pair when `maxAge` is configured. -/
def freshnessHeaders (env : Env) (date1 : Option Int) : Headers :=
  match date1 with
  | none => []
  | some d =>
    let h0 := hset (hset [] "last-modified" (.timeVal d)) "date" (.timeVal env.now)
    match env.settings.maxAge with
    | none => h0
    | some ma =>
      hset (hset h0 "expires" (.timeVal (env.now + ma * 1000)))
        "cache-control" (.strVal ("max-age=" ++ toString ma))

/-- The handler body, parameterized by the loopback fetch used for the
aggregate bootstrap file. -/
def minifyW (env : Env) (fetch : Fetch) (req : Request) : Except Unit Response :=
  match resolvePath env.reg req.filename with
  | none => .ok ⟨404, [], ""⟩
  | some filename =>
    let contentType := mimeLookup filename
    match statFile env filename 3 with
    | .error e => .error e
    | .ok (date0, exists0) =>
      let date1 := date0.map (fun t => t - t % 1000)
      let hs := freshnessHeaders env date1
      if exists0 = false then .ok ⟨404, hs, ""⟩
      else if imsGE (parseIMS req.headers) date1 then .ok ⟨304, hs, ""⟩
      else if req.method = "HEAD" then
        .ok ⟨200, hset hs "content-type" (.strVal (ctString contentType)), ""⟩
      else if req.method = "GET" then
        match getFileCompressed env fetch filename contentType with
        | .error e => .error e
        | .ok content =>
          .ok ⟨200, hset hs "content-type" (.strVal (ctString contentType)), content⟩
      else .ok ⟨405, hset hs "allow" (.strVal "HEAD, GET"), ""⟩

/- ### Loopback fetching (`requestURI`, `requestURIs`, lines 50-93) -/

/-- The `pathname + search` of a parsed URL of the shape
`scheme://host/path...` (the only shape the module builds). -/
def urlPathAndSearch (url : String) : String :=
  String.mk (urlAfterHost url.data)
where
  urlAfterHost : List Char → List Char
    | ':' :: '/' :: '/' :: rest => rest.dropWhile (fun c => c ≠ '/')
    | _ :: rest => urlAfterHost rest
    | [] => []

/-- The mock request's `params.filename`:
`(pathname + search).replace(/^\/static\//, '')`. -/
def loopbackFilename (url : String) : String :=
  let ps := urlPathAndSearch url
  if ("/static/".data).isPrefixOf ps.data then sliceFrom ps 8 else ps

/-- Apply the handler's header writes to the caller-supplied shared
header object, in write order (the mock `setHeader`/`writeHead`). -/
def mergeHeaders (base new : Headers) : Headers :=
  new.foldl (fun h kv => hset h kv.1 kv.2) base

/-- `requestURI` (lines 50-84) parameterized by the fetch the inner
handler uses: run the handler on a mock request/response pair; the
response's header writes land in the caller's `headers` object, which is
also returned. -/
def requestURIW (env : Env) (fetch : Fetch) (url method : String)
    (headers : Headers) : Except Unit (Nat × Headers × String) :=
  match minifyW env fetch ⟨loopbackFilename url, method, headers⟩ with
  | .error e => .error e
  | .ok resp => .ok (resp.status, mergeHeaders headers resp.headers, resp.body)

/-- Tie the recursive knot between the handler and the loopback fetch with
a depth budget: at depth 0 an inner fetch rejects (the source would loop
forever on a self-referential include). -/
def fetchFuel (env : Env) : Nat → Fetch
  | 0 => fun _ => .error ()
  | n + 1 => fun url => requestURIW env (fetchFuel env n) url "GET" []

/-- The exported handler: `minify(req, res)` at loopback depth `fuel`. -/
def minify (env : Env) (fuel : Nat) (req : Request) : Except Unit Response :=
  minifyW env (fetchFuel env fuel) req

/-- The exported single-URI loopback fetch. -/
def requestURI (env : Env) (fuel : Nat) (url method : String)
    (headers : Headers) : Except Unit (Nat × Headers × String) :=
  requestURIW env (fetchFuel env fuel) url method headers

/-- Thread the one shared header object through the fetches of a batch
(the source passes the same mutable `headers` object to every concurrent
`requestURI`; this is its sequential linearization). -/
def runLoopback (env : Env) (fuel : Nat) (method : String) :
    List String → Headers → Except Unit (List (Nat × String) × Headers)
  | [], h => .ok ([], h)
  | loc :: rest, h =>
    match requestURI env fuel loc method h with
    | .error e => .error e
    | .ok (st, h2, body) =>
      match runLoopback env fuel method rest h2 with
      | .error e => .error e
      | .ok (out, hfin) => .ok ((st, body) :: out, hfin)

/-- `requestURIs` (lines 86-93): fetch every location; by the time the
callback fires, every per-response header value is the one shared object
holding the writes of all fetches. -/
def requestURIs (env : Env) (fuel : Nat) (locations : List String)
    (method : String) (headers : Headers) :
    Except Unit (List Nat × List Headers × List String) :=
  match runLoopback env fuel method locations headers with
  | .error e => .error e
  | .ok (results, hfin) =>
    .ok (results.map (fun r => r.1), locations.map (fun _ => hfin),
         results.map (fun r => r.2))

/- ### Concrete demonstration environments -/

/-- A small filesystem: one script file under the asset root, the script
directory itself, and one path whose stat fails with a non-ENOENT
error. -/
def fsDemo : FS := {
  stat := fun p =>
    if p = "/etherpad/src/static/js/pad.js" then .ok 5000 true
    else if p = "/etherpad/src/static/js" then .ok 7000 false
    else if p = "/etherpad/src/static/js/perm.js" then .error
    else .enoent,
  readdir := fun _ => none,
  read := fun p =>
    if p = "/etherpad/src/static/js/pad.js" then some "PAD" else none }

/-- A demonstration environment around `fsDemo` with minification off. -/
def envDemo : Env := {
  fs := fsDemo,
  reg := fun _ => none,
  settings := { minify := false, maxAge := none },
  now := 111000,
  requireLastModified := 77000,
  kernelSource := "KERNELSRC",
  compressJS := fun _ => .errorField,
  compressCSS := fun _ => .exn }

/-- `envDemo` with minification on (its JS transform reports an error and
its CSS transform throws). -/
def envMin : Env := { envDemo with settings := { minify := true, maxAge := none } }

/-- A filesystem for the aggregate scan: one script file plus the two
directory self-entries. -/
def fsAgg : FS := {
  stat := fun p =>
    if p = "/etherpad/src/static/js//a.js" then .ok 10000 true
    else if p = "/etherpad/src/static/js//." then .ok 8000 false
    else if p = "/etherpad/src/static/css//." then .ok 9000 false
    else .enoent,
  readdir := fun p =>
    if p = "/etherpad/src/static/js/" then some ["a.js"]
    else if p = "/etherpad/src/static/css/" then some []
    else none,
  read := fun _ => none }

/-- Environment around `fsAgg`. -/
def envAgg : Env := { envDemo with fs := fsAgg }

/-- A filesystem whose bootstrap file carries one embed directive. -/
def fsAce : FS := {
  stat := fun _ => .enoent,
  readdir := fun _ => none,
  read := fun p =>
    if p = "/etherpad/src/static/js/ace.js" then some "A$$INCLUDE_JS(\"x.js\")B"
    else none }

/-- Environment around `fsAce` with minification on (so the directive is
scanned). -/
def envAce : Env := { envDemo with fs := fsAce, settings := { minify := true, maxAge := none } }

/-- A loopback fetch for the assembly demonstration: the referenced path
is missing (404), the require-kernel shim is served (200), anything else
reports a server error status. -/
def fetchAce : Fetch := fun u =>
  if u = "http://invalid.invalid/static/x.js" then .ok (404, [], "")
  else if u = "http://invalid.invalid/static/js/require-kernel.js" then .ok (200, [], "KS")
  else .ok (500, [], "")

/-- A plugin registry that registers the whitelisted library name
`underscore` as a plugin. -/
def regUnderscorePlugin : String → Option String :=
  fun n => if n = "underscore" then some "/plug/underscore" else none

/-- Decidable equality of handler outcomes (for concrete evaluation). -/
instance {ε α : Type} [DecidableEq ε] [DecidableEq α] : DecidableEq (Except ε α) :=
  fun a b =>
    match a, b with
    | .ok x, .ok y =>
      if h : x = y then .isTrue (by rw [h])
      else .isFalse (by intro hc; cases hc; exact h rfl)
    | .error x, .error y =>
      if h : x = y then .isTrue (by rw [h])
      else .isFalse (by intro hc; cases hc; exact h rfl)
    | .ok _, .error _ => .isFalse (by intro hc; cases hc)
    | .error _, .ok _ => .isFalse (by intro hc; cases hc)

/- ### Shared lemmas -/

/-- In-place overwrite of a present key is found by a key search. -/
theorem find?_hset_map (t : List (String × HdrVal)) (k : String) (v : HdrVal)
    (hc : (t.map (fun kv => kv.1)).contains k = true) :
    (t.map (fun kv => if kv.1 = k then (k, v) else kv)).find?
      (fun kv => kv.1 = k) = some (k, v) := by
  induction t with
  | nil => simp at hc
  | cons a t ih =>
    rw [List.map_cons, List.contains_cons] at hc
    by_cases hk : a.1 = k
    · rw [List.map_cons, if_pos hk]
      exact List.find?_cons_of_pos _ (by simp)
    · rw [List.map_cons, if_neg hk]
      rw [List.find?_cons_of_neg _ (by simp [hk])]
      apply ih
      have hbk : (k == a.1) = false := by
        simp
        intro he
        exact hk he.symm
      rw [hbk] at hc
      simpa using hc

/-- A key search fails on a list that does not contain the key. -/
theorem find?_none_of_not_contains (t : List (String × HdrVal)) (k : String)
    (hc : (t.map (fun kv => kv.1)).contains k = false) :
    t.find? (fun kv => kv.1 = k) = none := by
  induction t with
  | nil => rfl
  | cons a t ih =>
    rw [List.map_cons, List.contains_cons] at hc
    have h1 : (k == a.1) = false := by
      cases hh : (k == a.1) with
      | true => rw [hh] at hc; simp at hc
      | false => rfl
    have h2 : (t.map (fun kv => kv.1)).contains k = false := by
      rw [h1] at hc
      simpa using hc
    rw [List.find?_cons_of_neg _ (by simpa using fun he => by simp [he] at h1)]
    exact ih h2

/-- Reading back the key just assigned into a header object yields the
assigned value. -/
theorem hget_hset (h : Headers) (k : String) (v : HdrVal) :
    hget (hset h k v) k = some v := by
  unfold hget hset
  by_cases hc : ((h.map (fun kv => kv.1)).contains k) = true
  · rw [if_pos hc, find?_hset_map h k v hc]
    rfl
  · rw [if_neg hc, List.find?_append,
        find?_none_of_not_contains h k (by simpa using hc)]
    simp [List.find?]

/-- Unfolding one step of the running maximum. -/
theorem maxFold_cons (acc : Option Int) (m : Int) (ms : List Int) :
    maxFold acc (m :: ms) = maxFold (maxStep acc m) ms := rfl

/-- The empty fold returns the accumulator. -/
theorem maxFold_nil (acc : Option Int) : maxFold acc [] = acc := rfl

/-- The fold distributes over list append. -/
theorem maxFold_append (acc : Option Int) (xs ys : List Int) :
    maxFold acc (xs ++ ys) = maxFold (maxFold acc xs) ys := by
  unfold maxFold
  exact List.foldl_append maxStep acc xs ys

/-- One maximum step succeeds and dominates both its inputs. -/
theorem maxStep_exists (acc : Option Int) (m : Int) :
    ∃ n, maxStep acc m = some n ∧ m ≤ n ∧ ∀ l, acc = some l → l ≤ n := by
  cases acc with
  | none =>
    refine ⟨m, rfl, le_refl m, ?_⟩
    intro l hl
    cases hl
  | some l =>
    by_cases hc : m > l
    · refine ⟨m, by simp [maxStep, hc], le_refl m, ?_⟩
      intro l2 hl
      cases hl
      omega
    · refine ⟨l, by simp [maxStep, hc], by omega, ?_⟩
      intro l2 hl
      cases hl
      omega

/-- A fold that starts from a value dominates that value. -/
theorem maxFold_acc_le (ms : List Int) :
    ∀ l M, maxFold (some l) ms = some M → l ≤ M := by
  induction ms with
  | nil =>
    intro l M h
    rw [maxFold_nil] at h
    cases h
    omega
  | cons m t ih =>
    intro l M h
    rw [maxFold_cons] at h
    obtain ⟨n, he, _, hl⟩ := maxStep_exists (some l) m
    rw [he] at h
    exact le_trans (hl l rfl) (ih n M h)

/-- The fold result dominates every list element. -/
theorem maxFold_mem_le (ms : List Int) :
    ∀ acc M x, x ∈ ms → maxFold acc ms = some M → x ≤ M := by
  induction ms with
  | nil =>
    intro acc M x hx
    exact absurd hx (List.not_mem_nil x)
  | cons m t ih =>
    intro acc M x hx h
    rw [maxFold_cons] at h
    obtain ⟨n, he, hmn, _⟩ := maxStep_exists acc m
    rw [he] at h
    rcases List.mem_cons.mp hx with rfl | hx2
    · exact le_trans hmn (maxFold_acc_le t n M h)
    · exact ih (some n) M x hx2 (by simpa [maxFold] using h)

/-- The fold result is the accumulator or an element of the list. -/
theorem maxFold_attained (ms : List Int) :
    ∀ acc M, maxFold acc ms = some M → acc = some M ∨ M ∈ ms := by
  induction ms with
  | nil =>
    intro acc M h
    rw [maxFold_nil] at h
    exact Or.inl h
  | cons m t ih =>
    intro acc M h
    rw [maxFold_cons] at h
    rcases ih (maxStep acc m) M h with hacc | hm
    · cases acc with
      | none =>
        cases hacc
        exact Or.inr (List.mem_cons_self m t)
      | some l =>
        by_cases hc : m > l
        · have : m = M := by
            simpa [maxStep, hc] using hacc
          exact Or.inr (this ▸ List.mem_cons_self m t)
        · have : l = M := by
            simpa [maxStep, hc] using hacc
          exact Or.inl (by rw [this])
    · exact Or.inr (List.mem_cons_of_mem m hm)

/-- A fold whose accumulator is a value never degenerates. -/
theorem maxFold_isSome (ms : List Int) :
    ∀ l, ∃ M, maxFold (some l) ms = some M := by
  induction ms with
  | nil =>
    intro l
    exact ⟨l, rfl⟩
  | cons m t ih =>
    intro l
    obtain ⟨n, he, _, _⟩ := maxStep_exists (some l) m
    rw [maxFold_cons, he]
    exact ih n

/-- A member that dominates the whole list is the fold result. -/
theorem maxFold_dominant (ms : List Int) (m0 : Int) (hmem : m0 ∈ ms)
    (hub : ∀ x, x ∈ ms → x ≤ m0) : maxFold none ms = some m0 := by
  cases ms with
  | nil => exact absurd hmem (List.not_mem_nil m0)
  | cons m t =>
    have h1 : maxFold none (m :: t) = maxFold (some m) t := by
      rw [maxFold_cons]
      rfl
    obtain ⟨M, hM⟩ := maxFold_isSome t m
    have hres : maxFold none (m :: t) = some M := by rw [h1, hM]
    have hle : M ≤ m0 := by
      rcases maxFold_attained (m :: t) none M hres with hc | hc
      · cases hc
      · exact hub M hc
    have hge : m0 ≤ M := maxFold_mem_le (m :: t) none M m0 hmem hres
    have : M = m0 := le_antisymm hle hge
    rw [hres, this]

/-- The folder fold under all-successful stats computes the running
maximum of the recorded mtimes. -/
theorem foldlM_stat_ok (fs : FS) (folder : String) (l : List String) :
    ∀ acc, (∀ f, f ∈ l → statIsOk fs (folder ++ "/" ++ f) = true) →
    (l.foldlM
      (fun a f =>
        match fs.stat (folder ++ "/" ++ f) with
        | .ok m _ => Except.ok (maxStep a m)
        | _ => Except.error ())
      acc : Except Unit (Option Int)) =
      .ok (maxFold acc (l.map (fun f => mtimeOf fs (folder ++ "/" ++ f)))) := by
  induction l with
  | nil =>
    intro acc _
    rfl
  | cons f t ih =>
    intro acc h
    have hf := h f (List.mem_cons_self f t)
    unfold statIsOk at hf
    cases hst : fs.stat (folder ++ "/" ++ f) with
    | ok m b =>
      rw [List.foldlM_cons]
      have hmt : mtimeOf fs (folder ++ "/" ++ f) = m := by
        unfold mtimeOf
        rw [hst]
      rw [hst]
      simp only [List.map_cons, hmt, maxFold_cons]
      have hbind :
          (do
            let init ← (Except.ok (maxStep acc m) : Except Unit (Option Int))
            t.foldlM
              (fun a f =>
                match fs.stat (folder ++ "/" ++ f) with
                | .ok m _ => Except.ok (maxStep a m)
                | _ => Except.error ())
              init) =
            t.foldlM
              (fun a f =>
                match fs.stat (folder ++ "/" ++ f) with
                | .ok m _ => Except.ok (maxStep a m)
                | _ => Except.error ())
              (maxStep acc m) := rfl
      rw [hbind]
      exact ih (maxStep acc m) (fun g hg => h g (List.mem_cons_of_mem f hg))
    | enoent =>
      rw [hst] at hf
      simp at hf
    | error =>
      rw [hst] at hf
      simp at hf

/-- A successful folder scan computes the running maximum over the
visited keys. -/
theorem scanFolder_eq (fs : FS) (folder : String) (files : List String)
    (acc : Option Int) (hr : fs.readdir folder = some files)
    (hok : ∀ p, p ∈ folderPaths fs folder → statIsOk fs p = true) :
    scanFolder fs folder acc =
      .ok (maxFold acc ((folderPaths fs folder).map (mtimeOf fs))) := by
  unfold scanFolder
  simp only [hr]
  have hpaths : folderPaths fs folder = (files ++ ["."]).map (fun f => folder ++ "/" ++ f) := by
    unfold folderPaths
    rw [hr]
    rfl
  have hok2 : ∀ f, f ∈ files ++ ["."] → statIsOk fs (folder ++ "/" ++ f) = true := by
    intro f hf
    apply hok
    rw [hpaths]
    exact List.mem_map_of_mem (fun f => folder ++ "/" ++ f) hf
  rw [foldlM_stat_ok fs folder (files ++ ["."]) acc hok2, hpaths, List.map_map]
  rfl

/-- A successful aggregate scan computes the maximum mtime over all
visited keys of both trees. -/
theorem lmde_eq (fs : FS) (jsl cssl : List String)
    (hjs : fs.readdir (ROOT_DIR ++ "js/") = some jsl)
    (hcss : fs.readdir (ROOT_DIR ++ "css/") = some cssl)
    (hok : ∀ p, p ∈ lmEntryPaths fs → statIsOk fs p = true) :
    lastModifiedDateOfEverything fs =
      .ok (maxFold none ((lmEntryPaths fs).map (mtimeOf fs))) := by
  have hok1 : ∀ p, p ∈ folderPaths fs (ROOT_DIR ++ "js/") → statIsOk fs p = true := by
    intro p hp
    exact hok p (by unfold lmEntryPaths; exact List.mem_append_left _ hp)
  have hok2 : ∀ p, p ∈ folderPaths fs (ROOT_DIR ++ "css/") → statIsOk fs p = true := by
    intro p hp
    exact hok p (by unfold lmEntryPaths; exact List.mem_append_right _ hp)
  unfold lastModifiedDateOfEverything AGGREGATE_DIRS
  rw [List.foldlM_cons]
  rw [scanFolder_eq fs (ROOT_DIR ++ "js/") jsl none hjs hok1]
  have hbind :
      (do
        let init ← (Except.ok (maxFold none ((folderPaths fs (ROOT_DIR ++ "js/")).map (mtimeOf fs))) :
          Except Unit (Option Int))
        [ROOT_DIR ++ "css/"].foldlM (fun a folder => scanFolder fs folder a) init) =
        [ROOT_DIR ++ "css/"].foldlM (fun a folder => scanFolder fs folder a)
          (maxFold none ((folderPaths fs (ROOT_DIR ++ "js/")).map (mtimeOf fs))) := rfl
  rw [hbind, List.foldlM_cons]
  rw [scanFolder_eq fs (ROOT_DIR ++ "css/") cssl _ hcss hok2]
  unfold lmEntryPaths
  rw [List.map_append, maxFold_append]
  rfl

/-- Concatenation of strings distributes over list append. -/
theorem strJoin_append (a b : List String) :
    strJoin (a ++ b) = strJoin a ++ strJoin b := by
  induction a with
  | nil =>
    simp [strJoin]
  | cons s t ih =>
    show s ++ strJoin (t ++ b) = (s ++ strJoin t) ++ strJoin b
    rw [ih, String.append_assoc]

/-- Under a never-rejecting fetch, mapping the chunk generator over the
reference list produces the pure chunk texts. -/
theorem mapM_aceChunk_ok (fetch : Fetch) (l : List String)
    (hok : ∀ g, g ∈ l → (fetchStatus fetch g).isSome = true) :
    l.mapM (aceChunk fetch) = .ok (l.map (aceChunkStr fetch)) := by
  induction l with
  | nil => rfl
  | cons g t ih =>
    rw [List.mapM_cons]
    have hg := hok g (List.mem_cons_self g t)
    unfold fetchStatus at hg
    cases hf : fetch (aceResourceURI g) with
    | error e =>
      rw [hf] at hg
      simp at hg
    | ok r =>
      obtain ⟨st, hs, bd⟩ := r
      have hchunk : aceChunk fetch g =
          .ok (aceChunkStr fetch g) := by
        unfold aceChunk aceChunkStr
        rw [hf]
        by_cases hc : st = 200 ∨ st = 404
        · simp [hc]
        · simp [hc]
      rw [hchunk, ih (fun x hx => hok x (List.mem_cons_of_mem g hx))]
      rfl

/- ### Claims -/

/-- C1 (amended): for every requested logical path whose normalized
absolute form, after the additional removal of literal `..` character
pairs, does not keep the asset root as a prefix, the handler answers 404
with an empty body and no headers, for every method and header set and
every environment — the universal quantification over the environment
shows that no filesystem stat, read, or compression is consulted.
(The claim as frozen predicates the rejection on the normalized path
alone; the `..`-strip can pull an escaping normalized path back under the
root, see the counterexample.) -/
theorem c1_escape_rejected (env : Env) (fuel : Nat) (req : Request)
    (h : ROOT_DIR.data.isPrefixOf (stripDotDot (normalizedAbs req.filename)).data = false) :
    minify env fuel req = .ok ⟨404, [], ""⟩ := by
  unfold minify minifyW resolvePath
  simp [h]

/-- C1 witness: a plain parent-directory traversal is answered 404 with an
empty body. -/
theorem c1_escape_rejected_witness :
    minify envDemo 0 ⟨"../../etc/passwd", "GET", []⟩ = .ok ⟨404, [], ""⟩ :=
  c1_escape_rejected envDemo 0 ⟨"../../etc/passwd", "GET", []⟩ (by decide)

/-- C1 counterexample: the logical path `../static../js/pad.js` normalizes
to the absolute path `/etherpad/src/static../js/pad.js`, which escapes the
asset root, yet the handler does not answer 404: the defense-in-depth
strip of literal `..` pairs rewrites the path back under the root and the
request is served with status 200 and a full body (so the handler did
proceed to stat and read). -/
theorem c1_counterexample :
    ROOT_DIR.data.isPrefixOf (normalizedAbs "../static../js/pad.js").data = false ∧
    minify envDemo 0 ⟨"../static../js/pad.js", "GET", []⟩ =
      .ok ⟨200, [("last-modified", .timeVal 5000), ("date", .timeVal 111000),
                 ("content-type", .strVal "application/javascript")], "PAD"⟩ := by
  exact ⟨by decide, by decide⟩

/-- C4: the freshness stat returns no timestamp and `exists = false` when
the budget is exhausted or the path has degenerated to empty or the root;
and when the exact file is missing (ENOENT) it recurses on the parent
directory with the budget reduced by one, pairing that recursion's date
with `exists = false`. -/
theorem c4_statfile_parent_fallback (env : Env) (f : String) (b : Nat) :
    statFile env f 0 = .ok (none, false) ∧
    ((f = "" ∨ f = "/") → statFile env f b = .ok (none, false)) ∧
    (∀ d e1, f ≠ "" → f ≠ "/" → f ≠ "js/ace.js" → f ≠ "js/require-kernel.js" →
      env.fs.stat (ROOT_DIR ++ f) = .enoent →
      statFile env (dirname f) b = .ok (d, e1) →
      statFile env f (b + 1) = .ok (d, false)) := by
  refine ⟨rfl, ?_, ?_⟩
  · intro h
    cases b with
    | zero => rfl
    | succ n =>
      unfold statFile
      rcases h with h | h <;> simp [h]
  · intro d e1 h1 h2 h3 h4 h5 h6
    unfold statFile
    simp [h1, h2, h3, h4, h5, h6]
    rfl

/-- C4 witness: a missing file inherits the mtime of its existing parent
directory, flagged as not existing. -/
theorem c4_statfile_parent_fallback_witness :
    statFile envDemo "js/x.js" 2 = .ok (some 7000, false) :=
  (c4_statfile_parent_fallback envDemo "js/x.js" 1).2.2 (some 7000) false
    (by decide) (by decide) (by decide) (by decide) (by decide) (by decide)

/-- C10 (amended): in the generic branch of the freshness stat, a stat
rejection other than ENOENT propagates as an exception; a successful stat
returns the mtime paired with `isFile()` (so `exists = false` can also
arise without ENOENT, for a directory); the parent-directory fallback is
taken exactly on ENOENT. -/
theorem c10_stat_error_propagation (env : Env) (f : String) (b : Nat)
    (h1 : f ≠ "") (h2 : f ≠ "/") (h3 : f ≠ "js/ace.js")
    (h4 : f ≠ "js/require-kernel.js") :
    (env.fs.stat (ROOT_DIR ++ f) = .error → statFile env f (b + 1) = .error ()) ∧
    (∀ m isf, env.fs.stat (ROOT_DIR ++ f) = .ok m isf →
      statFile env f (b + 1) = .ok (some m, isf)) ∧
    (env.fs.stat (ROOT_DIR ++ f) = .enoent →
      statFile env f (b + 1) =
        (statFile env (dirname f) b).map (fun p => (p.1, false))) := by
  refine ⟨?_, ?_, ?_⟩
  · intro h5
    unfold statFile
    simp [h1, h2, h3, h4, h5]
  · intro m isf h5
    unfold statFile
    simp [h1, h2, h3, h4, h5]
  · intro h5
    conv_lhs => rw [statFile]
    simp [h1, h2, h3, h4, h5]

/-- C10 witness: a permission-style stat failure surfaces as an exception
(server error), not as a 404-style result. -/
theorem c10_stat_error_propagation_witness :
    statFile envDemo "js/perm.js" 3 = .error () :=
  (c10_stat_error_propagation envDemo "js/perm.js" 2
    (by decide) (by decide) (by decide) (by decide)).1 (by decide)

/-- C10 counterexample: the claim restricts `exists = false` to the ENOENT
case, but a path whose stat succeeds as a directory also reports
`exists = false` (`stats.isFile()` is false) while the filesystem did not
report ENOENT. -/
theorem c10_counterexample :
    statFile envDemo "js" 3 = .ok (some 7000, false) ∧
    envDemo.fs.stat (ROOT_DIR ++ "js") = .ok 7000 false := by
  exact ⟨by decide, by decide⟩

/-- C2 (amended): for a logical path of the form `plugins/<name><rest>`
whose `<name>` is in the fixed library whitelist, the resolution rewrite
produces the sibling-dependency form `../node_modules/<name><rest>` —
provided `<name>` is not simultaneously a registered plugin with a
`static/` sub-path, because the source consults the plugin registry first
and that branch takes precedence (see the counterexample). -/
theorem c2_whitelist_rewrite (reg : String → Option String) (f : String) (m : PMatch)
    (hm : pluginsMatch f = some m)
    (hw : LIBRARY_WHITELIST.contains m.library = true)
    (hnp : reg m.library = none ∨ m.isStaticPath = false) :
    pluginRewrite reg f = "../node_modules/" ++ m.library ++ m.libraryPath := by
  have hmem : m.library ∈ LIBRARY_WHITELIST := by simpa using hw
  rcases hnp with h | h
  · cases hs : m.isStaticPath <;>
      simp only [pluginRewrite, hm, h, hs] <;> simp [hmem]
  · cases hr : reg m.library <;>
      simp only [pluginRewrite, hm, h, hr] <;> simp [hmem]

/-- C2 witness: a whitelisted library that is not a registered plugin is
rewritten into the sibling dependency directory. -/
theorem c2_whitelist_rewrite_witness :
    pluginRewrite (fun _ => none) "plugins/underscore/a.js" =
      "../node_modules/" ++ "underscore" ++ "/a.js" :=
  c2_whitelist_rewrite (fun _ => none) "plugins/underscore/a.js"
    ⟨"underscore", "/a.js", false⟩ (by decide) (by decide) (Or.inl rfl)

/-- C2 counterexample: when the whitelisted library name `underscore` is
also present in the plugin registry and the sub-path starts with
`static/`, resolution consults the registry and rewrites to the plugin's
real install path, not to the sibling-dependency form the claim
prescribes. -/
theorem c2_counterexample :
    LIBRARY_WHITELIST.contains "underscore" = true ∧
    resolvePath regUnderscorePlugin "plugins/underscore/static/x.js" =
      some "../../../plug/underscore/static/x.js" ∧
    resolvePath regUnderscorePlugin "plugins/underscore/static/x.js" ≠
      some ("../node_modules/" ++ "underscore" ++ "/static/x.js") := by
  exact ⟨by decide, by decide, by decide⟩

/-- C3: for a resource that exists with last-modified time `T` at whole
seconds, a GET whose `if-modified-since` parses to `T` is answered 304
with an empty body, and a GET whose header parses to `T` minus one second
is answered 200 with the full body. -/
theorem c3_conditional_get (env : Env) (fuel : Nat) (raw f : String) (T : Int)
    (content : String)
    (hres : resolvePath env.reg raw = some f)
    (hstat : statFile env f 3 = .ok (some T, true))
    (hsec : T % 1000 = 0)
    (hbody : getFileCompressed env (fetchFuel env fuel) f (mimeLookup f) = .ok content) :
    minify env fuel ⟨raw, "GET", [("if-modified-since", .timeVal T)]⟩ =
      .ok ⟨304, freshnessHeaders env (some T), ""⟩ ∧
    minify env fuel ⟨raw, "GET", [("if-modified-since", .timeVal (T - 1000))]⟩ =
      .ok ⟨200, hset (freshnessHeaders env (some T)) "content-type"
            (.strVal (ctString (mimeLookup f))), content⟩ := by
  have hd : (some T).map (fun t => t - t % 1000) = some T := by
    simp [hsec]
  have hims1 : imsGE (parseIMS [("if-modified-since", HdrVal.timeVal T)]) (some T) = true := by
    simp [imsGE, parseIMS, hget, List.find?]
  have hims2 : imsGE (parseIMS [("if-modified-since", HdrVal.timeVal (T - 1000))]) (some T) = false := by
    simp [imsGE, parseIMS, hget, List.find?]
  constructor
  · unfold minify minifyW
    simp [hres, hstat, hd, hims1]
  · unfold minify minifyW
    simp [hres, hstat, hd, hims2, hbody]

/-- C3 witness: the demonstration file (mtime 5000 ms, a whole second)
yields 304 on an equal `if-modified-since` and 200 with the body on one a
second older. -/
theorem c3_conditional_get_witness :
    minify envDemo 0 ⟨"js/pad.js", "GET", [("if-modified-since", .timeVal 5000)]⟩ =
      .ok ⟨304, freshnessHeaders envDemo (some 5000), ""⟩ ∧
    minify envDemo 0 ⟨"js/pad.js", "GET", [("if-modified-since", .timeVal (5000 - 1000))]⟩ =
      .ok ⟨200, hset (freshnessHeaders envDemo (some 5000)) "content-type"
            (.strVal (ctString (mimeLookup "js/pad.js"))), "PAD"⟩ :=
  c3_conditional_get envDemo 0 "js/pad.js" "js/pad.js" 5000 "PAD"
    (by decide) (by decide) (by decide) (by decide)

/-- C9 (amended): a method other than HEAD and GET against an existing
resource is answered 405 with the header `allow: HEAD, GET` and an empty
body — provided the request's `if-modified-since` header does not trigger
the conditional branch, which the handler checks before the method
dispatch (see the counterexample). -/
theorem c9_method_not_allowed (env : Env) (fuel : Nat) (raw f method : String)
    (hdrs : Headers) (d0 : Option Int)
    (hres : resolvePath env.reg raw = some f)
    (hstat : statFile env f 3 = .ok (d0, true))
    (hims : imsGE (parseIMS hdrs) (d0.map (fun t => t - t % 1000)) = false)
    (hm1 : method ≠ "HEAD") (hm2 : method ≠ "GET") :
    minify env fuel ⟨raw, method, hdrs⟩ =
      .ok ⟨405, hset (freshnessHeaders env (d0.map (fun t => t - t % 1000)))
            "allow" (.strVal "HEAD, GET"), ""⟩ ∧
    headerValOf (minify env fuel ⟨raw, method, hdrs⟩) "allow" =
      some (.strVal "HEAD, GET") := by
  have h1 : minify env fuel ⟨raw, method, hdrs⟩ =
      .ok ⟨405, hset (freshnessHeaders env (d0.map (fun t => t - t % 1000)))
            "allow" (.strVal "HEAD, GET"), ""⟩ := by
    unfold minify minifyW
    simp [hres, hstat, hims, hm1, hm2]
  refine ⟨h1, ?_⟩
  rw [h1]
  unfold headerValOf
  exact hget_hset _ "allow" _

/-- C9 witness: a POST without a conditional header gets 405,
`allow: HEAD, GET`, empty body. -/
theorem c9_method_not_allowed_witness :
    minify envDemo 0 ⟨"js/pad.js", "POST", []⟩ =
      .ok ⟨405, hset (freshnessHeaders envDemo ((some 5000).map (fun t => t - t % 1000)))
            "allow" (.strVal "HEAD, GET"), ""⟩ ∧
    headerValOf (minify envDemo 0 ⟨"js/pad.js", "POST", []⟩) "allow" =
      some (.strVal "HEAD, GET") :=
  c9_method_not_allowed envDemo 0 "js/pad.js" "js/pad.js" "POST" [] (some 5000)
    (by decide) (by decide) (by decide) (by decide) (by decide)

/-- C9 counterexample: the claim promises 405 regardless of the request
headers, but a POST whose `if-modified-since` equals the resource's
last-modified time is answered by the conditional branch (304), which the
source checks before the method dispatch. -/
theorem c9_counterexample :
    minify envDemo 0 ⟨"js/pad.js", "POST", [("if-modified-since", .timeVal 5000)]⟩ =
      .ok ⟨304, freshnessHeaders envDemo (some 5000), ""⟩ := by
  decide

/-- C6: for a script or stylesheet asset whose transform reports an error
or throws, the compression step returns the original uncompressed content
and a GET is still answered 200 with that content. -/
theorem c6_compression_failure (env : Env) (fuel : Nat) (raw f : String) (T : Int)
    (content : String) (hdrs : Headers)
    (hres : resolvePath env.reg raw = some f)
    (hstat : statFile env f 3 = .ok (some T, true))
    (hims : imsGE (parseIMS hdrs) (some (T - T % 1000)) = false)
    (hfile : getFile env (fetchFuel env fuel) f = .ok content)
    (hct : mimeLookup f = some "application/javascript" ∨ mimeLookup f = some "text/css")
    (hjs : mimeLookup f = some "application/javascript" →
      env.compressJS content = .errorField ∨ env.compressJS content = .exn)
    (hcss : mimeLookup f = some "text/css" → env.compressCSS f = .exn) :
    getFileCompressed env (fetchFuel env fuel) f (mimeLookup f) = .ok content ∧
    minify env fuel ⟨raw, "GET", hdrs⟩ =
      .ok ⟨200, hset (freshnessHeaders env (some (T - T % 1000))) "content-type"
            (.strVal (ctString (mimeLookup f))), content⟩ := by
  have hcomp : getFileCompressed env (fetchFuel env fuel) f (mimeLookup f) = .ok content := by
    unfold getFileCompressed
    rw [hfile]
    by_cases hempty : content = "" ∨ env.settings.minify = false
    · simp [hempty]
    · rcases hct with hc | hc
      · rcases hjs hc with hj | hj <;> simp [hempty, hc, hj]
      · have : env.compressCSS f = .exn := hcss hc
        simp [hempty, hc, this]
  refine ⟨hcomp, ?_⟩
  unfold minify minifyW
  simp [hres, hstat, hims, hcomp]

/-- C6 witness: with minification on and a JS transform that reports an
error, the demonstration file is served uncompressed with status 200. -/
theorem c6_compression_failure_witness :
    getFileCompressed envMin (fetchFuel envMin 0) "js/pad.js" (mimeLookup "js/pad.js") =
      .ok "PAD" ∧
    minify envMin 0 ⟨"js/pad.js", "GET", []⟩ =
      .ok ⟨200, hset (freshnessHeaders envMin (some (5000 - 5000 % 1000))) "content-type"
            (.strVal (ctString (mimeLookup "js/pad.js"))), "PAD"⟩ :=
  c6_compression_failure envMin 0 "js/pad.js" "js/pad.js" 5000 "PAD" []
    (by decide) (by decide) (by decide) (by decide)
    (Or.inl (by decide)) (fun _ => Or.inl rfl) (fun _ => rfl)

/-- C5: the freshness record for the aggregate bootstrap name `js/ace.js`
reports `exists = true` with a last-modified time equal to the maximum
mtime over all scanned entries of the script and style directories (the
two directories themselves included); the maximum dominates every entry
and is attained by one; and raising any single scanned entry's mtime
above the old maximum advances the aggregate timestamp to it. -/
theorem c5_aggregate_freshness (env : Env) (M : Int) (jsl cssl : List String)
    (hjs : env.fs.readdir (ROOT_DIR ++ "js/") = some jsl)
    (hcss : env.fs.readdir (ROOT_DIR ++ "css/") = some cssl)
    (hok : ∀ p, p ∈ lmEntryPaths env.fs → statIsOk env.fs p = true)
    (hM : maxFold none ((lmEntryPaths env.fs).map (mtimeOf env.fs)) = some M) :
    statFile env "js/ace.js" 3 = .ok (some M, true) ∧
    (∀ p, p ∈ lmEntryPaths env.fs → mtimeOf env.fs p ≤ M) ∧
    (∃ p, p ∈ lmEntryPaths env.fs ∧ mtimeOf env.fs p = M) ∧
    (∀ fs2 : FS, ∀ p m2 b2, p ∈ lmEntryPaths env.fs →
      fs2.readdir = env.fs.readdir →
      (∀ q, q ≠ p → fs2.stat q = env.fs.stat q) →
      fs2.stat p = .ok m2 b2 → M < m2 →
      lastModifiedDateOfEverything fs2 = .ok (some m2)) := by
  have hlm := lmde_eq env.fs jsl cssl hjs hcss hok
  refine ⟨?_, ?_, ?_, ?_⟩
  · have hace : statFile env "js/ace.js" 3 =
        (lastModifiedDateOfEverything env.fs).map (fun d => (d, true)) := rfl
    rw [hace, hlm, hM]
    rfl
  · intro p hp
    exact maxFold_mem_le _ none M _ (List.mem_map_of_mem _ hp) hM
  · rcases maxFold_attained _ none M hM with h | h
    · cases h
    · obtain ⟨p, hp, hpe⟩ := List.mem_map.mp h
      exact ⟨p, hp, hpe⟩
  · intro fs2 p m2 b2 hp hrd hagree hstat2 hlt
    have hpaths : lmEntryPaths fs2 = lmEntryPaths env.fs := by
      unfold lmEntryPaths folderPaths
      rw [hrd]
    have hjs2 : fs2.readdir (ROOT_DIR ++ "js/") = some jsl := by
      rw [hrd]
      exact hjs
    have hcss2 : fs2.readdir (ROOT_DIR ++ "css/") = some cssl := by
      rw [hrd]
      exact hcss
    have hok2 : ∀ q, q ∈ lmEntryPaths fs2 → statIsOk fs2 q = true := by
      intro q hq
      rw [hpaths] at hq
      by_cases hqp : q = p
      · subst hqp
        unfold statIsOk
        rw [hstat2]
      · unfold statIsOk
        rw [hagree q hqp]
        have := hok q hq
        unfold statIsOk at this
        exact this
    have hlm2 := lmde_eq fs2 jsl cssl hjs2 hcss2 hok2
    rw [hlm2, hpaths]
    have hm2p : mtimeOf fs2 p = m2 := by
      unfold mtimeOf
      rw [hstat2]
    have hdom : maxFold none ((lmEntryPaths env.fs).map (mtimeOf fs2)) = some m2 := by
      apply maxFold_dominant
      · exact List.mem_map.mpr ⟨p, hp, hm2p⟩
      · intro x hx
        obtain ⟨q, hq, hqe⟩ := List.mem_map.mp hx
        by_cases hqp : q = p
        · subst hqp
          omega
        · have heq : mtimeOf fs2 q = mtimeOf env.fs q := by
            unfold mtimeOf
            rw [hagree q hqp]
          have hle := maxFold_mem_le _ none M _ (List.mem_map_of_mem _ hq) hM
          omega
    rw [hdom]

/-- C5 witness: in a concrete two-tree filesystem the aggregate stat is
the maximum entry mtime with `exists = true`. -/
theorem c5_aggregate_freshness_witness :
    statFile envAgg "js/ace.js" 3 = .ok (some 10000, true) :=
  (c5_aggregate_freshness envAgg 10000 ["a.js"] []
    (by decide) (by decide) (by decide) (by decide)).1

/-- Under a non-rejecting fetch, the assembled bootstrap text is the
original data, the embed-table header, and the generated line of every
referenced path in order. -/
theorem getAceFile_eq (env : Env) (fetch : Fetch) (data : String)
    (hread : env.fs.read (ROOT_DIR ++ "js/ace.js") = some data)
    (hok : ∀ g, g ∈ aceFilenames env data → (fetchStatus fetch g).isSome = true) :
    getAceFile env fetch =
      .ok (data ++ ";\n" ++ "Ace2Editor.EMBEDED = Ace2Editor.EMBEDED || \x7b\x7d;\n" ++
        strJoin ((aceFilenames env data).map (aceChunkStr fetch))) := by
  unfold getAceFile
  simp only [hread]
  rw [mapM_aceChunk_ok fetch _ hok]

/-- C7: during assembly of the aggregate bootstrap file every referenced
path contributes its generated line independently — the batch equals the
header plus the concatenation over the (split) reference list — and the
line of a path whose loopback fetch reports 404 is the mapping of the
path literal to `null`, while any other non-200 status contributes
nothing (it is only logged); in both cases the lines of the remaining
referenced paths are still assembled. -/
theorem c7_ace_assembly (env : Env) (fetch : Fetch) (data fn : String)
    (l1 l2 : List String)
    (hread : env.fs.read (ROOT_DIR ++ "js/ace.js") = some data)
    (hsplit : aceFilenames env data = l1 ++ fn :: l2)
    (hok : ∀ g, g ∈ aceFilenames env data → (fetchStatus fetch g).isSome = true) :
    getAceFile env fetch =
      .ok (data ++ ";\n" ++ "Ace2Editor.EMBEDED = Ace2Editor.EMBEDED || \x7b\x7d;\n" ++
        (strJoin (l1.map (aceChunkStr fetch)) ++
         (aceChunkStr fetch fn ++ strJoin (l2.map (aceChunkStr fetch))))) ∧
    (∀ hs bd, fetch (aceResourceURI fn) = .ok (404, hs, bd) →
      aceChunkStr fetch fn =
        "Ace2Editor.EMBEDED[" ++ jsonStringify fn ++ "] = " ++ "null" ++ ";\n") ∧
    (∀ st hs bd, fetch (aceResourceURI fn) = .ok (st, hs, bd) →
      st ≠ 200 → st ≠ 404 → aceChunkStr fetch fn = "") := by
  refine ⟨?_, ?_, ?_⟩
  · have hjoin : strJoin ((l1 ++ fn :: l2).map (aceChunkStr fetch)) =
        strJoin (l1.map (aceChunkStr fetch)) ++
          (aceChunkStr fetch fn ++ strJoin (l2.map (aceChunkStr fetch))) := by
      rw [List.map_append, strJoin_append]
      rfl
    rw [getAceFile_eq env fetch data hread hok, hsplit, hjoin]
  · intro hs bd hf
    unfold aceChunkStr
    rw [hf]
    simp
  · intro st hs bd hf h200 h404
    unfold aceChunkStr
    rw [hf]
    simp [h200, h404]

/-- C7 witness: in the concrete assembly environment the referenced path
`x.js` is missing (404) and is recorded as `null`, while the
require-kernel line is still assembled. -/
theorem c7_ace_assembly_witness :
    getAceFile envAce fetchAce =
      .ok ("A$$INCLUDE_JS(\"x.js\")B" ++ ";\n" ++
        "Ace2Editor.EMBEDED = Ace2Editor.EMBEDED || \x7b\x7d;\n" ++
        (strJoin (([] : List String).map (aceChunkStr fetchAce)) ++
         (aceChunkStr fetchAce "x.js" ++
          strJoin ((["../static/js/require-kernel.js"] : List String).map
            (aceChunkStr fetchAce))))) :=
  (c7_ace_assembly envAce fetchAce "A$$INCLUDE_JS(\"x.js\")B" "x.js"
    [] ["../static/js/require-kernel.js"]
    (by decide) (by decide) (by decide)).1

/-- C8 (demonstrating the defect): the batched loopback fetch hands every
concurrent inner fetch the same mutable header object, so the header
values returned for the second URI contain the response headers written
while handling the first URI, whereas an isolated fetch of the second URI
returns no headers at all — the batch does not equal the list of
independent single-URI fetches. -/
theorem c8_shared_header_state :
    requestURIs envDemo 2
      ["http://invalid.invalid/static/js/pad.js", "http://invalid.invalid/static/nope"]
      "GET" [] =
      .ok ([200, 404],
        [[("last-modified", .timeVal 5000), ("date", .timeVal 111000),
          ("content-type", .strVal "application/javascript")],
         [("last-modified", .timeVal 5000), ("date", .timeVal 111000),
          ("content-type", .strVal "application/javascript")]],
        ["PAD", ""]) ∧
    requestURI envDemo 2 "http://invalid.invalid/static/nope" "GET" [] =
      .ok (404, [], "") := by
  exact ⟨by decide, by decide⟩
